import Mathlib

/-!
Verification of the MCP server platform core (TypeScript sources) against its
natural-language specification.

The TypeScript sources are shallowly embedded: JavaScript runtime values that
tool arguments can take are the inductive `JSValue`; JavaScript `Map` objects
are association lists with `Map.set` insertion-order semantics (`jsSet`);
mutation is explicit state passing; `async` functions that can reject are
`Except`-valued.  Numeric confidences (JS floats whose exact values the spec
quotes as 0, 0.6, 0.8, 1.0) are modelled exactly over `ℚ`.  Tool handlers are
modelled as functions from their argument value to a result or a thrown error
message; the call-context parameter that handlers receive is not consulted by
any property below and is elided from the handler's type.
-/

set_option autoImplicit false

namespace MCP

/-- JavaScript runtime values, as far as the platform inspects them
(`typeof`, truthiness, array-ness).  Functions are not needed as argument
values by any verified property. -/
inductive JSValue where
  | null
  | undef
  | bool (b : Bool)
  | num (n : Int)
  | str (s : String)
  | arr (elems : List JSValue)
  | obj (fields : List (String × JSValue))

/-- JavaScript `typeof v === 'object'`.  Note `typeof null === 'object'` and
`typeof [] === 'object'`. -/
def JSValue.typeofObject : JSValue → Bool
  | .null => true
  | .undef => false
  | .bool _ => false
  | .num _ => false
  | .str _ => false
  | .arr _ => true
  | .obj _ => true

/-- JavaScript truthiness: `null`, `undefined`, `false`, `0`, `''` are falsy;
every array and every object (including `\x7b\x7d`) is truthy. -/
def JSValue.truthy : JSValue → Bool
  | .null => false
  | .undef => false
  | .bool b => b
  | .num n => n != 0
  | .str s => s ≠ ""
  | .arr _ => true
  | .obj _ => true

/-- Truthiness of a JS value that is either a string or `undefined`
(e.g. `targetWorkflow`): `undefined` and `''` are falsy. -/
def optStrTruthy : Option String → Bool
  | none => false
  | some s => s ≠ ""

/-- `Map.get`: first (unique) binding of the key. -/
def jsGet {α : Type} : List (String × α) → String → Option α
  | [], _ => none
  | (k, v) :: rest, key => if k = key then some v else jsGet rest key

/-- `Map.set`: overwrite in place if the key is present (keeping its
position), otherwise append — JavaScript `Map` insertion-order semantics. -/
def jsSet {α : Type} : List (String × α) → String → α → List (String × α)
  | [], key, v => [(key, v)]
  | (k, w) :: rest, key, v =>
      if k = key then (key, v) :: rest else (k, w) :: jsSet rest key v

/-! ## Middleware (packages/core/src/middleware.ts) -/

/-- `ValidationMiddleware.beforeToolCall`: embeds
`if (!params || typeof params !== 'object') throw ...`. -/
def validationBeforeToolCall (toolName : String) (params : JSValue) :
    Except String Unit :=
  if !params.truthy || !params.typeofObject then
    .error ("Invalid parameters for tool " ++ toolName ++ ": expected object")
  else
    .ok ()

/-- One per-tool record of `RateLimitMiddleware.callCounts`. -/
structure RLRecord where
  count : Nat
  resetTime : Int
  deriving DecidableEq

/-- `RateLimitMiddleware.beforeToolCall` as a transition on the `callCounts`
map: admit and return the updated map, or throw the rate-limit error. -/
def rateLimitBeforeToolCall (maxCalls : Nat) (windowMs : Int)
    (callCounts : List (String × RLRecord)) (now : Int) (toolName : String) :
    Except String (List (String × RLRecord)) :=
  match jsGet callCounts toolName with
  | none => .ok (jsSet callCounts toolName ⟨1, now + windowMs⟩)
  | some record =>
      if record.resetTime < now then
        .ok (jsSet callCounts toolName ⟨1, now + windowMs⟩)
      else if maxCalls ≤ record.count then
        .error ("Rate limit exceeded for tool " ++ toolName)
      else
        .ok (jsSet callCounts toolName ⟨record.count + 1, record.resetTime⟩)

/-- An admitted tool call, instrumented with the `resetTime` of the window
record under which it was admitted. -/
structure AdmittedCall where
  time : Int
  tool : String
  resetAt : Int
  deriving DecidableEq

/-- Run the rate limiter over a timed sequence of calls `(now, toolName)`,
collecting the admitted calls (denied calls fail with the rate-limit error
and change nothing). -/
def rlRun (maxCalls : Nat) (windowMs : Int) :
    List (Int × String) → List (String × RLRecord) → List AdmittedCall
  | [], _ => []
  | (now, toolName) :: rest, callCounts =>
      match rateLimitBeforeToolCall maxCalls windowMs callCounts now toolName with
      | .error _ => rlRun maxCalls windowMs rest callCounts
      | .ok callCounts' =>
          let resetAt := match jsGet callCounts' toolName with
            | some r => r.resetTime
            | none => 0
          ⟨now, toolName, resetAt⟩ :: rlRun maxCalls windowMs rest callCounts'

/-- Number of admitted calls of `tool` inside the half-open time window
`[start, start + width)`. -/
def countWindow (calls : List AdmittedCall) (tool : String)
    (start width : Int) : Nat :=
  (calls.filter fun c =>
    c.tool = tool && start ≤ c.time && c.time < start + width).length

/-- Admitted calls of `tool` that were admitted under the window record whose
`resetTime` is `R`. -/
def admGroup (calls : List AdmittedCall) (tool : String) (R : Int) :
    List AdmittedCall :=
  calls.filter fun c => c.tool = tool && c.resetAt = R

/-- The call times of a schedule are nondecreasing and bounded below by
`lo`. -/
def timesLB (lo : Int) : List (Int × String) → Prop
  | [] => True
  | (t, _) :: rest => lo ≤ t ∧ timesLB t rest

/-- The number of admissions the live window record of `tool` has already
counted towards reset time `R` (0 if no record with that reset time). -/
def groupCount (counts : List (String × RLRecord)) (tool : String)
    (R : Int) : Nat :=
  match jsGet counts tool with
  | some r => if r.resetTime = R then r.count else 0
  | none => 0

/-- The counterexample schedule for the sliding-window claim:
four calls to tool "a" at times 0, 99, 101, 150. -/
def rlSchedule : List (Int × String) :=
  [(0, "a"), (99, "a"), (101, "a"), (150, "a")]

/-! ## Server kernel (packages/core/src/server.ts) -/

/-- A registered tool as the dispatcher uses it: its handler maps the
`arguments` value to a result or a thrown error message (the call-context
argument is elided; no verified property consults it). -/
structure Tool where
  handler : JSValue → Except String JSValue

/-- A middleware: optional hooks.  `beforeToolCall`/`afterToolCall` may throw
(an error message); `onError` hooks only observe (the source logs in them),
so only their presence matters to dispatch. -/
structure MW where
  name : String
  beforeToolCall : Option (String → JSValue → Except String Unit)
  afterToolCall : Option (String → JSValue → JSValue → Except String Unit)
  onError : Bool

/-- Observable middleware/handler invocations of one dispatch, in call
order. -/
inductive MWEvent where
  | before (mwName toolName : String)
  | handler (toolName : String)
  | after (mwName toolName : String)
  | onError (mwName : String)
  deriving DecidableEq

/-- An error escaping a dispatch: an `McpError` with a JSON-RPC code, or a
plain thrown error. -/
inductive DispatchError where
  | mcpError (code : Int) (message : String)
  | thrown (message : String)
  deriving DecidableEq

/-- The message carried by an escaped error (as read by
`error instanceof Error ? error.message : ...`). -/
def DispatchError.msg : DispatchError → String
  | .mcpError _ m => m
  | .thrown m => m

/-- The `tools/call` success payload.  The source wraps the handler result as
`content: [ (type: text, text) ]` where `text` is the result itself when it
is a string and its JSON rendering otherwise; no verified property inspects
the rendering, so the result value is carried unrendered. -/
structure ToolCallResult where
  result : JSValue

/-- The `for (const middleware of this.middleware) ... beforeToolCall` loop:
events of the hooks actually called, and the first thrown error if any
(the loop stops at the first throw). -/
def runBefores : List MW → String → JSValue → List MWEvent × Option String
  | [], _, _ => ([], none)
  | m :: rest, toolName, args =>
      match m.beforeToolCall with
      | none => runBefores rest toolName args
      | some f =>
          match f toolName args with
          | .error e => ([.before m.name toolName], some e)
          | .ok _ =>
              let (evs, err) := runBefores rest toolName args
              (.before m.name toolName :: evs, err)

/-- The `afterToolCall` loop, same shape as `runBefores`. -/
def runAfters : List MW → String → JSValue → JSValue → List MWEvent × Option String
  | [], _, _, _ => ([], none)
  | m :: rest, toolName, args, result =>
      match m.afterToolCall with
      | none => runAfters rest toolName args result
      | some f =>
          match f toolName args result with
          | .error e => ([.after m.name toolName], some e)
          | .ok _ =>
              let (evs, err) := runAfters rest toolName args result
              (.after m.name toolName :: evs, err)

/-- The `onError` loop in the catch block: every middleware with an `onError`
hook is called, in registration order. -/
def onErrorEvents (mws : List MW) : List MWEvent :=
  mws.filterMap fun m => if m.onError then some (.onError m.name) else none

/-- All `beforeToolCall` hooks succeed on these inputs. -/
def allBeforesOk (mws : List MW) (toolName : String) (args : JSValue) : Bool :=
  mws.all fun m =>
    match m.beforeToolCall with
    | none => true
    | some f => match f toolName args with | .ok _ => true | .error _ => false

/-- All `afterToolCall` hooks succeed on these inputs. -/
def allAftersOk (mws : List MW) (toolName : String) (args : JSValue)
    (result : JSValue) : Bool :=
  mws.all fun m =>
    match m.afterToolCall with
    | none => true
    | some f =>
        match f toolName args result with | .ok _ => true | .error _ => false

/-- Events of the `beforeToolCall` hooks when none fails: one per middleware
that has the hook, in registration order. -/
def beforeEvents (mws : List MW) (toolName : String) : List MWEvent :=
  mws.filterMap fun m => m.beforeToolCall.map fun _ => .before m.name toolName

/-- Events of the `afterToolCall` hooks when none fails. -/
def afterEvents (mws : List MW) (toolName : String) : List MWEvent :=
  mws.filterMap fun m => m.afterToolCall.map fun _ => .after m.name toolName

/-- The server model: the configured middleware chain and the tool registry
(keys are the namespaced `pluginId:name` strings). -/
structure ServerModel where
  middleware : List MW
  tools : List (String × Tool)

/-- The `CallToolRequestSchema` handler of `setupHandlers` (the SDK/stdio
dispatch path): befores in order, then the tool, then afters in order; any
throw runs every `onError` hook in order and escapes as `McpError`
`InternalError` (−32603); a missing tool escapes as `MethodNotFound`
(−32601) before any middleware runs. -/
def sdkCallTool (srv : ServerModel) (toolName : String) (args : JSValue) :
    Except DispatchError ToolCallResult × List MWEvent :=
  match jsGet srv.tools toolName with
  | none =>
      (.error (.mcpError (-32601) ("Tool not found: " ++ toolName)), [])
  | some tool =>
      let (bevs, berr) := runBefores srv.middleware toolName args
      match berr with
      | some e =>
          (.error (.mcpError (-32603) ("Tool execution failed: " ++ e)),
           bevs ++ onErrorEvents srv.middleware)
      | none =>
          match tool.handler args with
          | .error e =>
              (.error (.mcpError (-32603) ("Tool execution failed: " ++ e)),
               bevs ++ [.handler toolName] ++ onErrorEvents srv.middleware)
          | .ok r =>
              let (aevs, aerr) := runAfters srv.middleware toolName args r
              match aerr with
              | some e =>
                  (.error (.mcpError (-32603) ("Tool execution failed: " ++ e)),
                   bevs ++ [.handler toolName] ++ aevs ++
                     onErrorEvents srv.middleware)
              | none => (.ok ⟨r⟩, bevs ++ [.handler toolName] ++ aevs)

/-- `MCPServer.handleToolCall` (the dispatch path used by
`setupTransportHandlers` for the HTTP and WebSocket transports): resolves
the tool and invokes its handler directly.  `this.middleware` is not
consulted on this path. -/
def handleToolCall (srv : ServerModel) (toolName : String) (args : JSValue) :
    Except DispatchError ToolCallResult × List MWEvent :=
  match jsGet srv.tools toolName with
  | none =>
      (.error (.mcpError (-32601) ("Tool not found: " ++ toolName)), [])
  | some tool =>
      match tool.handler args with
      | .error e => (.error (.thrown e), [.handler toolName])
      | .ok r => (.ok ⟨r⟩, [.handler toolName])

/-- A JSON-RPC error envelope `(code, message)`. -/
structure JsonRpcError where
  code : Int
  message : String
  deriving DecidableEq

/-- The catch-all of `setupTransportHandlers`: any error escaping a
transport-path dispatch is serialised as a JSON-RPC error envelope with
`code = -32603` and the error's message. -/
def transportEnvelope :
    Except DispatchError ToolCallResult → Except JsonRpcError ToolCallResult
  | .ok r => .ok r
  | .error e => .error ⟨-32603, e.msg⟩

/-- Is the event a `beforeToolCall` invocation? -/
def MWEvent.isBefore : MWEvent → Bool
  | .before _ _ => true
  | _ => false

/-- Is the event an `afterToolCall` invocation? -/
def MWEvent.isAfter : MWEvent → Bool
  | .after _ _ => true
  | _ => false

/-! ## Plugin host (PluginManager, packages/core/src/plugin-manager.ts) -/

/-- A tool definition as stored in the registry (`name`, `description`,
schema; the handler and schema are opaque to every verified property and
elided). -/
structure ToolDef where
  name : String
  description : String
  deriving DecidableEq

/-- A resource definition (handler elided, as for `ToolDef`). -/
structure ResourceDef where
  uri : String
  name : String
  description : String
  deriving DecidableEq

/-- A prompt definition (handler elided). -/
structure PromptDef where
  name : String
  description : String
  deriving DecidableEq

/-- Plugin metadata (the fields the manager reads). -/
structure PluginMeta where
  id : String
  name : String
  version : String
  deriving DecidableEq

instance {ε α : Type} [DecidableEq ε] [DecidableEq α] :
    DecidableEq (Except ε α) := fun x y =>
  match x, y with
  | .ok a, .ok b =>
      if h : a = b then isTrue (by rw [h]) else isFalse (by simp [h])
  | .error e, .error f =>
      if h : e = f then isTrue (by rw [h]) else isFalse (by simp [h])
  | .ok _, .error _ => isFalse (by simp)
  | .error _, .ok _ => isFalse (by simp)

/-- A plugin: metadata, what its `initialize` registers through the
registration context (in call order), and its optional `shutdown` hook
modelled by its outcome. -/
structure Plugin where
  metadata : PluginMeta
  toolDefs : List ToolDef
  resourceDefs : List ResourceDef
  promptDefs : List PromptDef
  shutdownHook : Option (Except String Unit)
  deriving DecidableEq

/-- The registries owned by `PluginManager`. -/
structure ManagerState where
  plugins : List (String × Plugin)
  tools : List (String × ToolDef)
  resources : List (String × ResourceDef)
  prompts : List (String × PromptDef)
  workflowStates : List (String × JSValue)

/-- The empty registries a fresh `PluginManager` starts with. -/
def emptyManagerState : ManagerState := ⟨[], [], [], [], []⟩

/-- The registration context built by `createPluginContext`: each operation
is a state transition (`Except` so that the spec's claimed failure mode is
expressible). -/
structure RegContext where
  registerTool : ToolDef → ManagerState → Except String ManagerState
  registerResource : ResourceDef → ManagerState → Except String ManagerState
  registerPrompt : PromptDef → ManagerState → Except String ManagerState

/-- `PluginManager.createPluginContext`: registration operations key tools
and prompts by `pluginId:name` and resources by bare `uri`, and always
succeed — the source contains no sealing of this context. -/
def createPluginContext (pluginId : String) : RegContext where
  registerTool := fun tool st =>
    .ok { st with tools := jsSet st.tools (pluginId ++ ":" ++ tool.name) tool }
  registerResource := fun resource st =>
    .ok { st with resources := jsSet st.resources resource.uri resource }
  registerPrompt := fun prompt st =>
    .ok { st with prompts := jsSet st.prompts (pluginId ++ ":" ++ prompt.name) prompt }

/-- `MCPServer.createToolExecutionContext`: the per-call execution context,
whose registration stubs always throw. -/
def createToolExecutionContext : RegContext where
  registerTool := fun _ _ => .error "Cannot register tools during execution"
  registerResource := fun _ _ => .error "Cannot register resources during execution"
  registerPrompt := fun _ _ => .error "Cannot register prompts during execution"

/-- The effect of a plugin's `initialize`: it registers each of its tool,
resource and prompt definitions through the registration context. -/
def runPluginInit (pluginId : String) (p : Plugin) (st : ManagerState) :
    ManagerState :=
  let ctx := createPluginContext pluginId
  let st₁ := p.toolDefs.foldl
    (fun s t => match ctx.registerTool t s with | .ok s' => s' | .error _ => s) st
  let st₂ := p.resourceDefs.foldl
    (fun s r => match ctx.registerResource r s with | .ok s' => s' | .error _ => s) st₁
  p.promptDefs.foldl
    (fun s q => match ctx.registerPrompt q s with | .ok s' => s' | .error _ => s) st₂

/-- `PluginManager.registerPlugin`: validate a non-empty, unused id, run the
plugin's `initialize` against a fresh registration context, then record the
plugin. -/
def registerPlugin (st : ManagerState) (p : Plugin) :
    Except String ManagerState :=
  if p.metadata.id = "" then
    .error "Plugin missing required metadata"
  else if (jsGet st.plugins p.metadata.id).isSome then
    .error ("Plugin already registered: " ++ p.metadata.id)
  else
    let st' := runPluginInit p.metadata.id p st
    .ok { st' with plugins := jsSet st'.plugins p.metadata.id p }

/-- The `for (const [name, plugin] of this.plugins)` loop of
`shutdownPlugins`: each plugin with a `shutdown` hook is called in map
(i.e. registration) order; a failure is caught and logged, and the loop
continues. -/
def runShutdownHooks : List (String × Plugin) → List (String × Except String Unit)
  | [] => []
  | (n, p) :: rest =>
      match p.shutdownHook with
      | none => runShutdownHooks rest
      | some r => (n, r) :: runShutdownHooks rest

/-- `PluginManager.shutdownPlugins`: run the shutdown loop, then clear every
registry (`plugins`, `tools`, `resources`, `prompts`, `workflowStates`).
Returns the trace of shutdown invocations and the final state. -/
def shutdownPlugins (st : ManagerState) :
    List (String × Except String Unit) × ManagerState :=
  (runShutdownHooks st.plugins, emptyManagerState)

/-! ## String primitives used by the intent detector

The sources operate on JavaScript strings with `toLowerCase`, `includes`
and `split(' ')`.  These are modelled over `List Char` (all inputs in this
development are ASCII, where `Char.toLower` agrees with
`String.prototype.toLowerCase`). -/

/-- `toLowerCase` over the character list. -/
def toLowerList (l : List Char) : List Char := l.map Char.toLower

/-- Does `text` start with `pattern`? -/
def listStartsWith : List Char → List Char → Bool
  | [], _ => true
  | _ :: _, [] => false
  | p :: ps, t :: ts => p = t && listStartsWith ps ts

/-- JavaScript `text.includes(pattern)`: `pattern` occurs contiguously in
`text` (the empty pattern always occurs). -/
def containsSubList (pattern : List Char) : List Char → Bool
  | [] => listStartsWith pattern []
  | c :: ts => listStartsWith pattern (c :: ts) || containsSubList pattern ts

/-- JavaScript `s.split(' ')` (splitting at every single space). -/
def splitOnSpaceAux (acc : List Char) : List Char → List (List Char)
  | [] => [acc.reverse]
  | c :: cs =>
      if c = ' ' then acc.reverse :: splitOnSpaceAux [] cs
      else splitOnSpaceAux (c :: acc) cs

/-- `pattern.split(' ')`. -/
def splitOnSpace (pattern : List Char) : List (List Char) :=
  splitOnSpaceAux [] pattern

/-- `RuleBasedIntentDetector.fuzzyMatch`: every space-separated word of the
pattern occurs somewhere in the text. -/
def fuzzyMatch (text pattern : List Char) : Bool :=
  (splitOnSpace pattern).all fun word => containsSubList word text

/-! ## Intent detection (RuleBasedIntentDetector) -/

/-- One loop iteration of `calculateConfidence`: update the running
`maxConfidence` for a single trigger.  Exact match → 1; substring match →
`(triggerLen / messageLen) * 0.8`; fuzzy match → 0.6; otherwise leave the
maximum unchanged.  JS float arithmetic is modelled exactly over `ℚ`. -/
def updateMaxConfidence (lowerMessage : List Char) (m : ℚ) (trigger : String) : ℚ :=
  let lowerTrigger := toLowerList trigger.data
  if lowerMessage = lowerTrigger then
    max m 1
  else if containsSubList lowerTrigger lowerMessage then
    max m ((lowerTrigger.length : ℚ) / (lowerMessage.length : ℚ) * (4 / 5))
  else if fuzzyMatch lowerMessage lowerTrigger then
    max m (3 / 5)
  else
    m

/-- `RuleBasedIntentDetector.calculateConfidence`. -/
def calculateConfidence (message : String) (triggers : List String) : ℚ :=
  triggers.foldl (updateMaxConfidence (toLowerList message.data)) 0

/-- An entry of `IntentAnalysis.intents`. -/
structure IntentItem where
  name : String
  confidence : ℚ
  parameters : List (String × String)

/-- An extracted entity. -/
structure Entity where
  type : String
  value : String
  confidence : ℚ

/-- The intent-analysis record returned by the detector. -/
structure IntentAnalysis where
  confidence : ℚ
  intents : List IntentItem
  entities : List Entity
  shouldSwitchWorkflow : Bool
  targetWorkflow : Option String
  extractedData : Option JSValue

/-! ## Orchestration data model (packages/types, session manager,
context manager, orchestrator) -/

/-- A conversation-history entry. -/
structure ConversationEntry where
  id : String
  timestamp : Int
  role : String
  content : String

/-- `UserSession.globalContext`. -/
structure GlobalContext where
  userId : String
  userName : String
  preferences : JSValue
  activeProjects : List String
  recentWorkflows : List String

/-- `WorkflowState.metadata`. -/
structure WorkflowMeta where
  startedAt : Int
  lastModified : Int
  completionPercentage : Int
  isDraft : Bool

/-- A workflow checkpoint. -/
structure Checkpoint where
  id : String
  timestamp : Int
  step : String
  description : String
  data : JSValue

/-- A `WorkflowContext.history` entry (its `details` payload is opaque to
every verified property and elided). -/
structure HistoryEntry where
  timestamp : Int
  action : String

/-- The per-workflow state. -/
structure WorkflowState where
  workflowId : String
  currentStep : String
  data : JSValue
  metadata : WorkflowMeta
  checkpoints : List Checkpoint

/-- The per-session workflow context. -/
structure WorkflowContext where
  workflowId : String
  state : WorkflowState
  hydratedData : JSValue
  tools : List String
  history : List HistoryEntry
  checkpoints : List Checkpoint

/-- A user session. -/
structure UserSession where
  sessionId : String
  userId : String
  userName : String
  activeWorkflow : Option String
  currentContext : String
  globalContext : GlobalContext
  workflowContext : Option WorkflowContext
  conversationHistory : List ConversationEntry
  createdAt : Int
  updatedAt : Int

/-- A registered workflow definition (the fields the orchestrator reads). -/
structure WorkflowDefinition where
  id : String
  name : String
  description : String
  triggers : List String
  capabilities : List String

/-- `WorkflowRegistry.register`: key by `definition.id`. -/
def registerWorkflow (registry : List (String × WorkflowDefinition))
    (definition : WorkflowDefinition) : List (String × WorkflowDefinition) :=
  jsSet registry definition.id definition

/-- The regex-driven extraction helpers (`extractEntities`,
`extractWorkflowData`) are not embedded — no verified property depends on
their output — so `analyzeMessage` is parametric in them and every theorem
quantifies over this environment. -/
structure ExtractorEnv where
  extractEntities : String → List Entity
  extractWorkflowData : String → WorkflowDefinition → JSValue

/-- `RuleBasedIntentDetector.analyzeMessage`: exit-signal check first (only
effective with a truthy `session.activeWorkflow`), then trigger matching
over the registry (first match wins), else `continue_current`. -/
def analyzeMessage (env : ExtractorEnv)
    (registry : List (String × WorkflowDefinition)) (message : String)
    (session : UserSession) : IntentAnalysis :=
  let lowerMessage := toLowerList message.data
  let exitSignals :=
    ["done", "finished", "complete", "exit", "stop", "end session", "quit"]
  let shouldExit :=
    exitSignals.any fun signal => containsSubList signal.data lowerMessage
  if shouldExit && optStrTruthy session.activeWorkflow then
    { confidence := 9 / 10
      intents := [⟨"exit_workflow", 9 / 10, []⟩]
      entities := []
      shouldSwitchWorkflow := true
      targetWorkflow := none
      extractedData := some (.obj [("reason", .str "user_requested")]) }
  else
    let matchingWorkflows := (registry.map Prod.snd).filter fun workflow =>
      workflow.triggers.any fun trigger =>
        containsSubList (toLowerList trigger.data) lowerMessage
    match matchingWorkflows with
    | bestMatch :: _ =>
        let confidence := calculateConfidence message bestMatch.triggers
        { confidence := confidence
          intents :=
            [⟨"switch_workflow", confidence, [("targetWorkflow", bestMatch.id)]⟩]
          entities := env.extractEntities message
          shouldSwitchWorkflow := decide (7 / 10 < confidence)
          targetWorkflow := some bestMatch.id
          extractedData := some (env.extractWorkflowData message bestMatch) }
    | [] =>
        { confidence := 1 / 10
          intents := [⟨"continue_current", 1 / 10, []⟩]
          entities := env.extractEntities message
          shouldSwitchWorkflow := false
          targetWorkflow := none
          extractedData := none }

/-! ## Context manager (ContextManager.switchContext) -/

/-- A registered context loader: `loadContext(workflowId, sessionId)`. -/
def ContextLoaderFn : Type := String → String → WorkflowContext

/-- JavaScript `initData || \x7b\x7d`. -/
def jsOrEmptyObj : Option JSValue → JSValue
  | none => .obj []
  | some v => if v.truthy then v else .obj []

/-- `ContextManager.switchContext`.  A falsy target (`undefined` or `''`)
clears the workflow and returns to the general context; otherwise the
target must be registered, a context is loaded or built skeletally, the
session's `activeWorkflow`/`currentContext` are set, and
`globalContext.recentWorkflows` is updated MRU-style (remove first
occurrence, unshift, cap at 10). -/
def switchContext (registry : List (String × WorkflowDefinition))
    (loaders : List (String × ContextLoaderFn)) (now : Int)
    (session : UserSession) (targetWorkflow : Option String)
    (initData : Option JSValue) : Except String UserSession :=
  if !optStrTruthy targetWorkflow then
    .ok { session with
            activeWorkflow := none
            workflowContext := none
            currentContext := "general" }
  else
    match targetWorkflow with
    | none => .error "unreachable: falsy target handled above"
    | some target =>
        match jsGet registry target with
        | none => .error ("Workflow not found: " ++ target)
        | some workflow =>
            let wctx :=
              match jsGet loaders target with
              | some loader => loader target session.sessionId
              | none =>
                  { workflowId := target
                    state :=
                      { workflowId := target
                        currentStep := "initial"
                        data := jsOrEmptyObj initData
                        metadata :=
                          { startedAt := now
                            lastModified := now
                            completionPercentage := 0
                            isDraft := true }
                        checkpoints := [] }
                    hydratedData := .obj []
                    tools := workflow.capabilities
                    history := []
                    checkpoints := [] }
            let recent := session.globalContext.recentWorkflows
            let recent := recent.erase target
            let recent := target :: recent
            let recent := recent.take 10
            .ok { session with
                    workflowContext := some wctx
                    activeWorkflow := some target
                    currentContext := target
                    globalContext :=
                      { session.globalContext with recentWorkflows := recent } }

/-! ## Session manager (SessionManager over InMemorySessionStore) -/

/-- The in-memory session store: a map keyed by `sessionId`. -/
def SessionStore : Type := List (String × UserSession)

/-- `generateSessionId`: `session_` + epoch millis (the 9-character random
suffix is nondeterministic and elided; no verified property depends on the
generated id's shape). -/
def generateSessionId (now : Int) : String :=
  "session_" ++ toString now

/-- `SessionManager.createSession`: build the fresh session (defaulting a
falsy `sessionId`) and write it through. -/
def createSession (store : SessionStore) (userId userName : String)
    (sessionId : Option String) (now : Int) : UserSession × SessionStore :=
  let sid :=
    match sessionId with
    | some s => if s = "" then generateSessionId now else s
    | none => generateSessionId now
  let session : UserSession :=
    { sessionId := sid
      userId := userId
      userName := userName
      activeWorkflow := none
      currentContext := "general"
      globalContext :=
        { userId := userId
          userName := userName
          preferences := .obj []
          activeProjects := []
          recentWorkflows := [] }
      workflowContext := none
      conversationHistory := []
      createdAt := now
      updatedAt := now }
  (session, jsSet store sid session)

/-- `SessionManager.getOrCreateSession`: look up only a truthy `sessionId`;
otherwise (or when absent) create, honouring the caller's id. -/
def getOrCreateSession (store : SessionStore) (sessionId : Option String)
    (userId userName : String) (now : Int) : UserSession × SessionStore :=
  match sessionId with
  | some sid =>
      if sid = "" then createSession store userId userName (some sid) now
      else
        match jsGet store sid with
        | some existing => (existing, store)
        | none => createSession store userId userName (some sid) now
  | none => createSession store userId userName none now

/-- `SessionManager.updateSession`: stamp `updatedAt` and write through
(returning the stamped session, which the caller's reference also
observes). -/
def updateSession (store : SessionStore) (session : UserSession) (now : Int) :
    UserSession × SessionStore :=
  let s := { session with updatedAt := now }
  (s, jsSet store s.sessionId s)

/-- `SessionManager.addMessage`: load the session; if present, append the
entry to its conversation history and write through via `updateSession`;
if the session does not exist, do nothing. -/
def addMessage (store : SessionStore) (sessionId : String)
    (entry : ConversationEntry) (now : Int) : SessionStore :=
  match jsGet store sessionId with
  | none => store
  | some s =>
      (updateSession store
        { s with conversationHistory := s.conversationHistory ++ [entry] }
        now).2

/-! ## Orchestrator facade (Orchestrator.processMessage) -/

/-- The result of `processMessage`. -/
structure ProcessResult where
  session : UserSession
  intent : IntentAnalysis
  workflowChanged : Bool

/-- `Orchestrator.processMessage`: resolve/create the session, append the
user message (`addMessage` acts on the stored session; through the
in-memory store the orchestrator's local reference observes the same
append, modelled by threading the updated value), run intent detection,
switch context only when `intent.shouldSwitchWorkflow` holds AND
`intent.targetWorkflow` is truthy, then persist. -/
def processMessage (env : ExtractorEnv)
    (registry : List (String × WorkflowDefinition))
    (loaders : List (String × ContextLoaderFn)) (store : SessionStore)
    (message : String) (sessionId : Option String) (userId userName : String)
    (now : Int) : Except String (ProcessResult × SessionStore) :=
  let (session₀, store₁) :=
    getOrCreateSession store sessionId userId userName now
  let entry : ConversationEntry :=
    ⟨"msg_" ++ toString now, now, "user", message⟩
  let session₁ :=
    { session₀ with
        conversationHistory := session₀.conversationHistory ++ [entry]
        updatedAt := now }
  let store₂ := jsSet store₁ session₁.sessionId session₁
  let intent := analyzeMessage env registry message session₁
  if intent.shouldSwitchWorkflow && optStrTruthy intent.targetWorkflow then
    match switchContext registry loaders now session₁ intent.targetWorkflow
        intent.extractedData with
    | .error e => .error e
    | .ok session₂ =>
        let (session₃, store₃) := updateSession store₂ session₂ now
        .ok (⟨session₃, intent, true⟩, store₃)
  else
    let (session₃, store₃) := updateSession store₂ session₁ now
    .ok (⟨session₃, intent, false⟩, store₃)

/-! ## Concrete instances used as witnesses and counterexamples -/

/-- An echo tool: returns its arguments. -/
def echoTool : Tool := ⟨fun a => .ok a⟩

/-- The built-in `ValidationMiddleware` as a middleware record: only a
`beforeToolCall` hook. -/
def validationMW : MW :=
  ⟨"validation", some validationBeforeToolCall, none, false⟩

/-- The built-in `LoggingMiddleware`: all three hooks, none of which can
throw (they only log). -/
def loggingMW : MW :=
  ⟨"logging", some fun _ _ => .ok (), some fun _ _ _ => .ok (), true⟩

/-- A server configured with the validation middleware and one echo tool. -/
def demoServer : ServerModel := ⟨[validationMW], [("demo:echo", echoTool)]⟩

/-- A server configured with the logging middleware and one echo tool. -/
def demoServerL : ServerModel := ⟨[loggingMW], [("demo:echo", echoTool)]⟩

/-- Tool definition registered by `pluginA`. -/
def tDef : ToolDef := ⟨"t", "tool t"⟩

/-- Tool definition registered by `pluginB`. -/
def uDef : ToolDef := ⟨"u", "tool u"⟩

/-- A tool definition registered after `initialize` has returned. -/
def lateToolDef : ToolDef := ⟨"late", "late tool"⟩

/-- A plugin whose `shutdown` hook fails. -/
def pluginA : Plugin :=
  ⟨⟨"alpha", "Alpha", "1.0.0"⟩, [tDef], [], [], some (.error "boom")⟩

/-- A plugin whose `shutdown` hook succeeds. -/
def pluginB : Plugin :=
  ⟨⟨"beta", "Beta", "1.0.0"⟩, [uDef], [], [], some (.ok ())⟩

/-- The registries after registering `pluginA` on a fresh manager. -/
def stA : ManagerState :=
  ⟨[("alpha", pluginA)], [("alpha:t", tDef)], [], [], []⟩

/-- The registries after additionally registering `pluginB`. -/
def stAB : ManagerState :=
  ⟨[("alpha", pluginA), ("beta", pluginB)],
   [("alpha:t", tDef), ("beta:u", uDef)], [], [], []⟩

/-- The sample workflow of the end-to-end scenarios. -/
def charWorkflow : WorkflowDefinition :=
  ⟨"character-creation", "Character Creation", "", ["create character"], []⟩

/-- A registry holding only `charWorkflow`. -/
def demoRegistry : List (String × WorkflowDefinition) :=
  registerWorkflow [] charWorkflow

/-- A skeletal workflow context for `charWorkflow`. -/
def charCtx : WorkflowContext :=
  { workflowId := "character-creation"
    state :=
      { workflowId := "character-creation"
        currentStep := "initial"
        data := .obj []
        metadata :=
          { startedAt := 0, lastModified := 0
            completionPercentage := 0, isDraft := true }
        checkpoints := [] }
    hydratedData := .obj []
    tools := []
    history := []
    checkpoints := [] }

/-- A session inside the `character-creation` workflow (the state scenario 5
of the spec reaches). -/
def activeSession : UserSession :=
  { sessionId := "s1"
    userId := "u"
    userName := "U"
    activeWorkflow := some "character-creation"
    currentContext := "character-creation"
    globalContext := ⟨"u", "U", .obj [], [], ["character-creation"]⟩
    workflowContext := some charCtx
    conversationHistory := []
    createdAt := 0
    updatedAt := 0 }

/-- A store holding `activeSession`. -/
def demoStore : SessionStore := [("s1", activeSession)]

/-- A trivial extraction environment (no entities, empty data object). -/
def trivialEnv : ExtractorEnv := ⟨fun _ => [], fun _ _ => .obj []⟩

/-- A fresh session (empty `recentWorkflows`). -/
def baseSession : UserSession := (createSession [] "u" "U" (some "s0") 0).1

/-- The session after switching `baseSession` into `character-creation`. -/
def switchedS : UserSession :=
  match switchContext demoRegistry [] 0 baseSession (some "character-creation") none with
  | .ok s => s
  | .error _ => baseSession

end MCP

namespace MCP

/-! ## Theorems -/

/-- jsGet after jsSet at the same key. -/
theorem jsGet_jsSet_self {α : Type} (m : List (String × α)) (k : String) (v : α) :
    jsGet (jsSet m k v) k = some v := by
  induction m with
  | nil => simp [jsGet, jsSet]
  | cons p rest ih =>
      obtain ⟨k', w⟩ := p
      by_cases h : k' = k <;> simp [jsGet, jsSet, h, ih]

/-- jsGet after jsSet at a different key. -/
theorem jsGet_jsSet_ne {α : Type} (m : List (String × α)) (k k' : String)
    (v : α) (h : k ≠ k') : jsGet (jsSet m k v) k' = jsGet m k' := by
  induction m with
  | nil => simp [jsGet, jsSet, h]
  | cons p rest ih =>
      obtain ⟨k₀, w⟩ := p
      by_cases h₀ : k₀ = k
      · subst h₀; simp [jsGet, jsSet, h]
      · simp only [jsSet, if_neg h₀]
        by_cases h₁ : k₀ = k' <;> simp [jsGet, h₁, ih]

/-- C5 counterexample: the claim says the validation middleware fails for
sequences (arrays), but `typeof [] === 'object'` and arrays are truthy, so
an array argument passes `ValidationMiddleware.beforeToolCall`. -/
theorem validation_allows_arrays_cex :
    validationBeforeToolCall "demo:echo" (JSValue.arr []) = .ok () ∧
    validationBeforeToolCall "demo:echo" (JSValue.arr [.num 1]) = .ok () :=
  ⟨rfl, rfl⟩

/-- C5 (amended): the validation middleware's `beforeToolCall` succeeds
exactly on JavaScript arrays and plain objects; it fails for `null`,
`undefined` and every primitive (non-object) argument, but does NOT reject
arrays. -/
theorem validation_ok_iff (toolName : String) (params : JSValue) :
    validationBeforeToolCall toolName params = .ok () ↔
      (∃ xs, params = JSValue.arr xs) ∨ (∃ fs, params = JSValue.obj fs) := by
  cases params <;>
    simp [validationBeforeToolCall, JSValue.truthy, JSValue.typeofObject]

/-- C4 counterexample: after `registerPlugin` (hence after the plugin's
`initialize` has returned), the registration context handed to the plugin
still registers: `registerTool` succeeds and appends the namespaced entry
instead of failing — the source never seals the context. -/
theorem registration_context_not_sealed_cex :
    registerPlugin emptyManagerState pluginA = .ok stA ∧
    (createPluginContext "alpha").registerTool lateToolDef stA =
      .ok ⟨stA.plugins, [("alpha:t", tDef), ("alpha:late", lateToolDef)],
           [], [], []⟩ :=
  ⟨rfl, rfl⟩

/-- C4 (amended): the registration context built by `createPluginContext`
is never sealed — its operations succeed on any state, at any time, adding
the namespaced (tools/prompts) or uri-keyed (resources) entry; only the
separate per-call execution context (`createToolExecutionContext`) carries
fail-active registration stubs. -/
theorem plugin_registration_never_sealed (pluginId : String) (tool : ToolDef)
    (resource : ResourceDef) (prompt : PromptDef) (st : ManagerState) :
    (createPluginContext pluginId).registerTool tool st =
      .ok { st with tools := jsSet st.tools (pluginId ++ ":" ++ tool.name) tool } ∧
    (createPluginContext pluginId).registerResource resource st =
      .ok { st with resources := jsSet st.resources resource.uri resource } ∧
    (createPluginContext pluginId).registerPrompt prompt st =
      .ok { st with prompts := jsSet st.prompts (pluginId ++ ":" ++ prompt.name) prompt } ∧
    createToolExecutionContext.registerTool tool st =
      .error "Cannot register tools during execution" ∧
    createToolExecutionContext.registerResource resource st =
      .error "Cannot register resources during execution" ∧
    createToolExecutionContext.registerPrompt prompt st =
      .error "Cannot register prompts during execution" :=
  ⟨rfl, rfl, rfl, rfl, rfl, rfl⟩

/-- C6 counterexample: with two plugins registered in the order
`alpha, beta`, `shutdownPlugins` calls their `shutdown` hooks in that same
registration order, not in the claimed reverse order (and `alpha`'s failure
does not stop `beta`'s shutdown). -/
theorem shutdown_order_forward_cex :
    registerPlugin emptyManagerState pluginA = .ok stA ∧
    registerPlugin stA pluginB = .ok stAB ∧
    (shutdownPlugins stAB).1 =
      [("alpha", Except.error "boom"), ("beta", Except.ok ())] ∧
    (shutdownPlugins stAB).1.map Prod.fst ≠ ["beta", "alpha"] :=
  ⟨rfl, rfl, rfl, by decide⟩

/-- C6 (amended): on shutdown the host calls each registered plugin's
optional `shutdown` hook in FORWARD registration order; a failing hook is
caught (logged) and never prevents the remaining hooks from running — the
trace is exactly the plugins with hooks, in order, failures included — and
every registry is cleared afterwards. -/
theorem shutdown_forward_order_drains_all (st : ManagerState) :
    (shutdownPlugins st).1 =
      st.plugins.filterMap (fun q => q.2.shutdownHook.map fun r => (q.1, r)) ∧
    (shutdownPlugins st).2 = emptyManagerState := by
  refine ⟨?_, rfl⟩
  show runShutdownHooks st.plugins = _
  induction st.plugins with
  | nil => rfl
  | cons q rest ih =>
      obtain ⟨n, p⟩ := q
      cases h : p.shutdownHook <;> simp [runShutdownHooks, h, ih]

/-- C7 counterexample: with `pluginA`'s registrations already present,
`registerPlugin pluginB ; shutdownPlugins` does NOT restore the
pre-registration registries — shutdown clears everything, losing
`alpha:t`. -/
theorem register_shutdown_clears_all_cex :
    registerPlugin stA pluginB = .ok stAB ∧
    (shutdownPlugins stAB).2.tools = [] ∧
    stA.tools = [("alpha:t", tDef)] ∧
    (shutdownPlugins stAB).2.tools ≠ stA.tools :=
  ⟨rfl, rfl, rfl, by decide⟩

/-- C7 (amended): after `registerPlugin ; shutdownPlugins` the registries
are completely empty; this equals the pre-registration state only when that
state was already empty (a fresh manager). -/
theorem register_shutdown_restores_only_from_empty (st : ManagerState)
    (p : Plugin) (st' : ManagerState) (h : registerPlugin st p = .ok st') :
    (shutdownPlugins st').2 = emptyManagerState ∧
    (st = emptyManagerState → (shutdownPlugins st').2 = st) :=
  ⟨rfl, fun he => he ▸ rfl⟩

/-- Witness for C7 (amended) at the fresh manager and `pluginA`. -/
theorem register_shutdown_restores_witness :
    (shutdownPlugins stA).2 = emptyManagerState ∧
    (emptyManagerState = emptyManagerState →
      (shutdownPlugins stA).2 = emptyManagerState) :=
  register_shutdown_restores_only_from_empty emptyManagerState pluginA stA rfl

/-- C10: `SessionManager.addMessage` on a session id absent from the store
completes without error and leaves the store unchanged — no session is
created and no history is appended. -/
theorem addMessage_absent_session_noop (store : SessionStore) (sid : String)
    (entry : ConversationEntry) (now : Int) (h : jsGet store sid = none) :
    addMessage store sid entry now = store := by
  simp [addMessage, h]

/-- Witness for C10 at the empty store. -/
theorem addMessage_absent_witness :
    addMessage [] "missing" ⟨"msg_1", 1, "user", "hi"⟩ 1 = [] :=
  addMessage_absent_session_noop [] "missing" ⟨"msg_1", 1, "user", "hi"⟩ 1 rfl

/-- C2: evaluation at the failing input.  With an active workflow and the
exit message "all done", the detector does return the `exit_workflow`
intent with `shouldSwitchWorkflow = true` and `targetWorkflow = undefined`
(its comment reads "Exit to general context"), but `processMessage` guards
the context switch with `intent.shouldSwitchWorkflow && intent.targetWorkflow`,
whose second conjunct is falsy — so the workflow is never exited:
`workflowChanged = false`, `activeWorkflow` stays set and `currentContext`
is not reset to "general", contradicting spec scenario 6. -/
theorem exit_signal_never_exits_bug :
    (processMessage trivialEnv demoRegistry [] demoStore "all done"
        (some "s1") "u" "U" 100).map
      (fun p =>
        (p.1.intent.intents.map IntentItem.name,
         p.1.intent.shouldSwitchWorkflow,
         p.1.intent.targetWorkflow,
         p.1.workflowChanged,
         p.1.session.activeWorkflow,
         p.1.session.currentContext)) =
    .ok (["exit_workflow"], true, none, false,
         some "character-creation", "character-creation") := by
  decide

/-- C9: after a successful `switchContext` to a registered workflow `w`
(with a non-empty id — an empty id is JS-falsy and takes the clear-context
branch), the MRU list `recentWorkflows` of any session satisfying the
documented no-duplicates invariant is again duplicate-free, has length at
most 10, and carries `w` at index 0. -/
theorem switchContext_recentWorkflows_mru
    (registry : List (String × WorkflowDefinition))
    (loaders : List (String × ContextLoaderFn)) (now : Int)
    (session : UserSession) (w : String) (initData : Option JSValue)
    (s' : UserSession) (hw : w ≠ "")
    (hnodup : session.globalContext.recentWorkflows.Nodup)
    (h : switchContext registry loaders now session (some w) initData = .ok s') :
    s'.globalContext.recentWorkflows.Nodup ∧
    s'.globalContext.recentWorkflows.length ≤ 10 ∧
    s'.globalContext.recentWorkflows.head? = some w := by
  rw [switchContext] at h
  simp only [optStrTruthy, hw] at h
  rw [if_neg (by simp [hw])] at h
  cases hreg : jsGet registry w with
  | none => rw [hreg] at h; exact absurd h (by simp)
  | some workflow =>
      rw [hreg] at h
      have hs : s'.globalContext.recentWorkflows =
          (w :: session.globalContext.recentWorkflows.erase w).take 10 := by
        cases hload : jsGet loaders w <;> rw [hload] at h <;>
          cases h <;> rfl
      refine ⟨?_, ?_, ?_⟩
      · rw [hs]
        refine List.Nodup.sublist (List.take_sublist _ _) ?_
        refine List.nodup_cons.mpr ⟨?_, hnodup.erase w⟩
        intro hmem
        exact absurd rfl ((hnodup.mem_erase_iff.mp hmem).1)
      · rw [hs, List.length_take]
        exact min_le_left _ _
      · rw [hs, List.take_succ_cons]
        rfl

/-- Witness for C9: switching a fresh session into `character-creation`. -/
theorem switchContext_recentWorkflows_witness :
    switchedS.globalContext.recentWorkflows.Nodup ∧
    switchedS.globalContext.recentWorkflows.length ≤ 10 ∧
    switchedS.globalContext.recentWorkflows.head? = some "character-creation" :=
  switchContext_recentWorkflows_mru demoRegistry [] 0 baseSession
    "character-creation" none switchedS (by decide) (by decide) rfl

/-- Lowercasing preserves length. -/
theorem toLowerList_length (l : List Char) :
    (toLowerList l).length = l.length := by
  simp [toLowerList]

/-- A list can only start with a pattern no longer than itself. -/
theorem listStartsWith_le {p t : List Char}
    (h : listStartsWith p t = true) : p.length ≤ t.length := by
  induction p generalizing t with
  | nil => simp
  | cons c ps ih =>
      cases t with
      | nil => simp [listStartsWith] at h
      | cons d ts =>
          simp only [listStartsWith, Bool.and_eq_true] at h
          simpa using ih h.2

/-- A string can only contain a pattern no longer than itself. -/
theorem containsSubList_le {p t : List Char}
    (h : containsSubList p t = true) : p.length ≤ t.length := by
  induction t with
  | nil => exact listStartsWith_le h
  | cons c ts ih =>
      simp only [containsSubList, Bool.or_eq_true] at h
      rcases h with h | h
      · exact listStartsWith_le h
      · exact le_trans (ih h) (by simp)

/-- C8 counterexample: the trigger "help help" is strictly longer than the
message "help", yet its confidence is 0.6 (fuzzy match: every word of the
trigger occurs in the message), not the claimed 0. -/
theorem long_trigger_fuzzy_cex :
    "help help".data.length > "help".data.length ∧
    calculateConfidence "help" ["help help"] = 3 / 5 ∧
    calculateConfidence "help" ["help help"] ≠ 0 := by
  have hne : toLowerList "help".data ≠ toLowerList "help help".data := by
    decide
  have hsub : containsSubList (toLowerList "help help".data)
      (toLowerList "help".data) = false := by decide
  have hfuz : fuzzyMatch (toLowerList "help".data)
      (toLowerList "help help".data) = true := by decide
  have hval : calculateConfidence "help" ["help help"] = 3 / 5 := by
    simp only [calculateConfidence, List.foldl_cons, List.foldl_nil,
      updateMaxConfidence, hsub, if_neg hne, hfuz, Bool.false_eq_true,
      if_false, if_true]
    exact max_eq_right (by norm_num)
  exact ⟨by decide, hval, by rw [hval]; norm_num⟩

/-- C8 (amended): a trigger strictly longer than the message can neither
equal it nor occur in it as a substring, so its confidence is 0.6 when it
fuzzy-matches (every space-separated word of the trigger occurs in the
message) and 0 otherwise; a trigger equal to the message up to case always
yields confidence 1.0. -/
theorem confidence_long_trigger_and_exact (message trigger : String) :
    (message.data.length < trigger.data.length →
      calculateConfidence message [trigger] =
        if fuzzyMatch (toLowerList message.data) (toLowerList trigger.data)
        then 3 / 5 else 0) ∧
    (toLowerList message.data = toLowerList trigger.data →
      calculateConfidence message [trigger] = 1) := by
  constructor
  · intro hlen
    have hne : toLowerList message.data ≠ toLowerList trigger.data := by
      intro he
      have hl := congrArg List.length he
      rw [toLowerList_length, toLowerList_length] at hl
      omega
    have hsub : containsSubList (toLowerList trigger.data)
        (toLowerList message.data) = false := by
      cases hc : containsSubList (toLowerList trigger.data)
          (toLowerList message.data)
      · rfl
      · have hle := containsSubList_le hc
        rw [toLowerList_length, toLowerList_length] at hle
        omega
    simp only [calculateConfidence, List.foldl_cons, List.foldl_nil,
      updateMaxConfidence, hsub, if_neg hne, Bool.false_eq_true, if_false]
    by_cases hf : fuzzyMatch (toLowerList message.data)
        (toLowerList trigger.data) = true
    · rw [if_pos hf, if_pos hf]
      exact max_eq_right (by norm_num)
    · rw [if_neg hf, if_neg hf]
  · intro he
    simp only [calculateConfidence, List.foldl_cons, List.foldl_nil,
      updateMaxConfidence, if_pos he]
    exact max_eq_right (by norm_num)

/-- Witness for C8 (amended): a long non-fuzzy trigger, and an
exact-up-to-case trigger. -/
theorem confidence_long_trigger_witness :
    calculateConfidence "hi" ["hi there"] =
      (if fuzzyMatch (toLowerList "hi".data) (toLowerList "hi there".data)
       then 3 / 5 else 0) ∧
    calculateConfidence "AbC" ["aBc"] = 1 :=
  ⟨(confidence_long_trigger_and_exact "hi" "hi there").1 (by decide),
   (confidence_long_trigger_and_exact "AbC" "aBc").2 (by decide)⟩

/-- When every `beforeToolCall` hook succeeds, the before loop emits one
event per middleware with the hook, in registration order, and throws
nothing. -/
theorem runBefores_of_ok (mws : List MW) (t : String) (a : JSValue)
    (h : allBeforesOk mws t a = true) :
    runBefores mws t a = (beforeEvents mws t, none) := by
  induction mws with
  | nil => rfl
  | cons m rest ih =>
      simp only [allBeforesOk, List.all_cons, Bool.and_eq_true] at h
      have h₂ := ih (by simpa [allBeforesOk] using h.2)
      cases hb : m.beforeToolCall with
      | none => simp [runBefores, beforeEvents, hb, h₂]
      | some f =>
          have h₁ : (match f t a with
              | Except.ok _ => true
              | Except.error _ => false) = true := by
            simpa [hb] using h.1
          cases hf : f t a with
          | error e => rw [hf] at h₁; simp at h₁
          | ok u => simp [runBefores, beforeEvents, hb, hf, h₂]

/-- When some `beforeToolCall` hook throws, the before loop returns the
thrown error after emitting only `before` events. -/
theorem runBefores_of_fail (mws : List MW) (t : String) (a : JSValue)
    (h : allBeforesOk mws t a = false) :
    ∃ evs e, runBefores mws t a = (evs, some e) ∧
      ∀ ev ∈ evs, ev.isBefore = true := by
  induction mws with
  | nil => simp [allBeforesOk] at h
  | cons m rest ih =>
      cases hb : m.beforeToolCall with
      | none =>
          have h₂ : allBeforesOk rest t a = false := by
            simpa [allBeforesOk, List.all_cons, hb] using h
          obtain ⟨evs, e, hE, hall⟩ := ih h₂
          exact ⟨evs, e, by simp [runBefores, hb, hE], hall⟩
      | some f =>
          cases hf : f t a with
          | error e =>
              refine ⟨[.before m.name t], e, by simp [runBefores, hb, hf], ?_⟩
              intro ev hev
              simp at hev
              simp [hev, MWEvent.isBefore]
          | ok u =>
              have h₂ : allBeforesOk rest t a = false := by
                simpa [allBeforesOk, List.all_cons, hb, hf] using h
              obtain ⟨evs, e, hE, hall⟩ := ih h₂
              refine ⟨.before m.name t :: evs, e, by simp [runBefores, hb, hf, hE], ?_⟩
              intro ev hev
              rcases List.mem_cons.mp hev with hev | hev
              · simp [hev, MWEvent.isBefore]
              · exact hall ev hev

/-- When every `afterToolCall` hook succeeds, the after loop emits one
event per middleware with the hook, in registration order. -/
theorem runAfters_of_ok (mws : List MW) (t : String) (a r : JSValue)
    (h : allAftersOk mws t a r = true) :
    runAfters mws t a r = (afterEvents mws t, none) := by
  induction mws with
  | nil => rfl
  | cons m rest ih =>
      simp only [allAftersOk, List.all_cons, Bool.and_eq_true] at h
      have h₂ := ih (by simpa [allAftersOk] using h.2)
      cases hb : m.afterToolCall with
      | none => simp [runAfters, afterEvents, hb, h₂]
      | some f =>
          have h₁ : (match f t a r with
              | Except.ok _ => true
              | Except.error _ => false) = true := by
            simpa [hb] using h.1
          cases hf : f t a r with
          | error e => rw [hf] at h₁; simp at h₁
          | ok u => simp [runAfters, afterEvents, hb, hf, h₂]

/-- When some `afterToolCall` hook throws, the after loop returns the
thrown error after emitting only `after` events. -/
theorem runAfters_of_fail (mws : List MW) (t : String) (a r : JSValue)
    (h : allAftersOk mws t a r = false) :
    ∃ evs e, runAfters mws t a r = (evs, some e) ∧
      ∀ ev ∈ evs, ev.isAfter = true := by
  induction mws with
  | nil => simp [allAftersOk] at h
  | cons m rest ih =>
      cases hb : m.afterToolCall with
      | none =>
          have h₂ : allAftersOk rest t a r = false := by
            simpa [allAftersOk, List.all_cons, hb] using h
          obtain ⟨evs, e, hE, hall⟩ := ih h₂
          exact ⟨evs, e, by simp [runAfters, hb, hE], hall⟩
      | some f =>
          cases hf : f t a r with
          | error e =>
              refine ⟨[.after m.name t], e, by simp [runAfters, hb, hf], ?_⟩
              intro ev hev
              simp at hev
              simp [hev, MWEvent.isAfter]
          | ok u =>
              have h₂ : allAftersOk rest t a r = false := by
                simpa [allAftersOk, List.all_cons, hb, hf] using h
              obtain ⟨evs, e, hE, hall⟩ := ih h₂
              refine ⟨.after m.name t :: evs, e, by simp [runAfters, hb, hf, hE], ?_⟩
              intro ev hev
              rcases List.mem_cons.mp hev with hev | hev
              · simp [hev, MWEvent.isAfter]
              · exact hall ev hev

/-- Every event the `onError` loop emits is an `onError` event. -/
theorem onErrorEvents_shape (mws : List MW) (ev : MWEvent)
    (h : ev ∈ onErrorEvents mws) : ∃ n, ev = .onError n := by
  simp only [onErrorEvents, List.mem_filterMap] at h
  obtain ⟨m, hmem, hm⟩ := h
  by_cases hb : m.onError = true
  · rw [if_pos hb] at hm
    exact ⟨m.name, (Option.some_inj.mp hm).symm⟩
  · rw [if_neg hb] at hm
    cases hm

/-- C1 counterexample: configure the server with the built-in validation
middleware, whose `beforeToolCall` rejects `null` arguments.  On the
transport dispatch path (`handleToolCall`, used for HTTP/WebSocket
requests) the tool is nevertheless invoked and succeeds, with no
middleware hook running at all — while the SDK path on the same input runs
the hook and aborts.  So not every transport path goes through the
pipeline. -/
theorem transport_path_skips_middleware_cex :
    validationBeforeToolCall "demo:echo" JSValue.null =
      .error "Invalid parameters for tool demo:echo: expected object" ∧
    handleToolCall demoServer "demo:echo" JSValue.null =
      (.ok ⟨JSValue.null⟩, [MWEvent.handler "demo:echo"]) ∧
    (sdkCallTool demoServer "demo:echo" JSValue.null).2 =
      [MWEvent.before "validation" "demo:echo"] :=
  ⟨rfl, rfl, rfl⟩

/-- C1 (amended): on the SDK dispatch path (`CallToolRequestSchema`
handler) the full pipeline runs as the claim states — `beforeToolCall`
hooks in registration order, the tool, `afterToolCall` hooks in
registration order; on any failure (a failing `beforeToolCall` aborts
before the tool is invoked) every `onError` hook runs in registration
order and an internal-error (−32603) envelope propagates.  On the custom
transport path used by the HTTP and WebSocket transports
(`handleToolCall`), the middleware pipeline is skipped entirely: the
resolved tool is always invoked directly, and a failure becomes a bare
−32603 envelope without any hook running. -/
theorem toolcall_pipeline_paths (srv : ServerModel) (tool : Tool)
    (toolName : String) (args : JSValue) (r : JSValue)
    (h : jsGet srv.tools toolName = some tool) :
    (allBeforesOk srv.middleware toolName args = true →
      tool.handler args = .ok r →
      allAftersOk srv.middleware toolName args r = true →
      sdkCallTool srv toolName args =
        (.ok ⟨r⟩, beforeEvents srv.middleware toolName ++
          MWEvent.handler toolName :: afterEvents srv.middleware toolName)) ∧
    (allBeforesOk srv.middleware toolName args = false →
      (∃ m, (sdkCallTool srv toolName args).1 =
        .error (.mcpError (-32603) m)) ∧
      MWEvent.handler toolName ∉ (sdkCallTool srv toolName args).2 ∧
      (∃ pre, (∀ ev ∈ pre, ev.isBefore = true) ∧
        (sdkCallTool srv toolName args).2 =
          pre ++ onErrorEvents srv.middleware)) ∧
    (∀ e, allBeforesOk srv.middleware toolName args = true →
      tool.handler args = .error e →
      sdkCallTool srv toolName args =
        (.error (.mcpError (-32603) ("Tool execution failed: " ++ e)),
         beforeEvents srv.middleware toolName ++
           MWEvent.handler toolName :: onErrorEvents srv.middleware)) ∧
    (allBeforesOk srv.middleware toolName args = true →
      tool.handler args = .ok r →
      allAftersOk srv.middleware toolName args r = false →
      (∃ m, (sdkCallTool srv toolName args).1 =
        .error (.mcpError (-32603) m)) ∧
      (∃ post, (∀ ev ∈ post, ev.isAfter = true) ∧
        (sdkCallTool srv toolName args).2 =
          beforeEvents srv.middleware toolName ++ MWEvent.handler toolName ::
            (post ++ onErrorEvents srv.middleware))) ∧
    ((handleToolCall srv toolName args).2 = [MWEvent.handler toolName]) ∧
    (∀ e, tool.handler args = .error e →
      transportEnvelope (handleToolCall srv toolName args).1 =
        .error ⟨-32603, e⟩) := by
  refine ⟨?_, ?_, ?_, ?_, ?_, ?_⟩
  · intro hb hh ha
    rw [sdkCallTool, h, runBefores_of_ok _ _ _ hb]
    simp [hh, runAfters_of_ok _ _ _ _ ha]
  · intro hb
    obtain ⟨evs, e, hE, hall⟩ := runBefores_of_fail _ _ _ hb
    rw [sdkCallTool, h, hE]
    refine ⟨⟨"Tool execution failed: " ++ e, rfl⟩, ?_, evs, hall, rfl⟩
    intro hmem
    rcases List.mem_append.mp hmem with hmem | hmem
    · have := hall _ hmem
      simp [MWEvent.isBefore] at this
    · obtain ⟨n, hn⟩ := onErrorEvents_shape _ _ hmem
      cases hn
  · intro e hb hh
    rw [sdkCallTool, h, runBefores_of_ok _ _ _ hb]
    simp [hh]
  · intro hb hh ha
    obtain ⟨evs, e, hE, hall⟩ := runAfters_of_fail _ _ _ _ ha
    rw [sdkCallTool, h, runBefores_of_ok _ _ _ hb]
    simp only [hh, hE]
    exact ⟨⟨"Tool execution failed: " ++ e, rfl⟩, evs, hall, by simp⟩
  · cases he : tool.handler args <;> simp [handleToolCall, h, he]
  · intro e he
    simp [handleToolCall, h, he, transportEnvelope, DispatchError.msg]

/-- Witness for C1 (amended): the logging-middleware server echoing an
empty object on the SDK path. -/
theorem toolcall_pipeline_witness :
    sdkCallTool demoServerL "demo:echo" (JSValue.obj []) =
      (.ok ⟨JSValue.obj []⟩,
       beforeEvents demoServerL.middleware "demo:echo" ++
         MWEvent.handler "demo:echo" ::
           afterEvents demoServerL.middleware "demo:echo") :=
  (toolcall_pipeline_paths demoServerL echoTool "demo:echo"
    (JSValue.obj []) (JSValue.obj []) rfl).1 rfl rfl rfl

/-- An admitted call matching a group is kept by the group filter. -/
theorem admGroup_cons_pos (c : AdmittedCall) (l : List AdmittedCall)
    (tool : String) (R : Int) (h1 : c.tool = tool) (h2 : c.resetAt = R) :
    admGroup (c :: l) tool R = c :: admGroup l tool R := by
  simp [admGroup, List.filter_cons, h1, h2]

/-- An admitted call not matching a group is dropped by the group filter. -/
theorem admGroup_cons_neg (c : AdmittedCall) (l : List AdmittedCall)
    (tool : String) (R : Int) (h : ¬(c.tool = tool ∧ c.resetAt = R)) :
    admGroup (c :: l) tool R = admGroup l tool R := by
  simp only [admGroup, List.filter_cons, Bool.and_eq_true, decide_eq_true_eq]
  rw [if_neg h]

/-- Unfold `groupCount` when a record is present. -/
theorem groupCount_of_get (counts : List (String × RLRecord)) (tool : String)
    (R : Int) (r : RLRecord) (h : jsGet counts tool = some r) :
    groupCount counts tool R = if r.resetTime = R then r.count else 0 := by
  simp [groupCount, h]

/-- `groupCount` is 0 without a record. -/
theorem groupCount_of_none (counts : List (String × RLRecord)) (tool : String)
    (R : Int) (h : jsGet counts tool = none) :
    groupCount counts tool R = 0 := by
  simp [groupCount, h]

/-- The fixed-window invariant of the rate limiter, for time-sorted
schedules: every admitted call lies inside the window
`[resetAt − windowMs, resetAt]` of the record that admitted it; a present
record bounds the `resetAt` of all later admissions of its tool from below;
and each window admits at most `maxCalls` calls (counting those the current
record has already admitted). -/
theorem rlRun_invariant (maxCalls : Nat) (windowMs : Int)
    (hmax : 1 ≤ maxCalls) (hw : 0 ≤ windowMs) :
    ∀ (sched : List (Int × String)) (counts : List (String × RLRecord))
      (lo : Int), timesLB lo sched →
      (∀ t r, jsGet counts t = some r →
        1 ≤ r.count ∧ r.count ≤ maxCalls ∧ r.resetTime ≤ lo + windowMs) →
      (∀ c ∈ rlRun maxCalls windowMs sched counts,
        c.resetAt - windowMs ≤ c.time ∧ c.time ≤ c.resetAt ∧
        ∀ r, jsGet counts c.tool = some r → r.resetTime ≤ c.resetAt) ∧
      (∀ tool R,
        (admGroup (rlRun maxCalls windowMs sched counts) tool R).length +
          groupCount counts tool R ≤ maxCalls) := by
  intro sched
  induction sched with
  | nil =>
      intro counts lo hmono hcounts
      refine ⟨by simp [rlRun], ?_⟩
      intro tool R
      simp only [rlRun, admGroup, List.filter_nil, List.length_nil,
        Nat.zero_add]
      cases hrec : jsGet counts tool with
      | none => rw [groupCount_of_none _ _ _ hrec]; exact Nat.zero_le _
      | some r =>
          rw [groupCount_of_get _ _ _ _ hrec]
          by_cases hR : r.resetTime = R
          · rw [if_pos hR]; exact (hcounts tool r hrec).2.1
          · rw [if_neg hR]; exact Nat.zero_le _
  | cons head rest ih =>
      obtain ⟨now, toolName⟩ := head
      intro counts lo hmono hcounts
      obtain ⟨hlon, hmono'⟩ := hmono
      cases hrec : jsGet counts toolName with
      | none =>
          have hstep : rateLimitBeforeToolCall maxCalls windowMs counts now
              toolName = .ok (jsSet counts toolName ⟨1, now + windowMs⟩) := by
            simp [rateLimitBeforeToolCall, hrec]
          have hrun : rlRun maxCalls windowMs ((now, toolName) :: rest) counts =
              ⟨now, toolName, now + windowMs⟩ ::
                rlRun maxCalls windowMs rest
                  (jsSet counts toolName ⟨1, now + windowMs⟩) := by
            simp [rlRun, hstep, jsGet_jsSet_self]
          have hcounts₁ : ∀ t r,
              jsGet (jsSet counts toolName ⟨1, now + windowMs⟩) t = some r →
              1 ≤ r.count ∧ r.count ≤ maxCalls ∧
                r.resetTime ≤ now + windowMs := by
            intro t r hr
            by_cases ht : t = toolName
            · subst ht
              rw [jsGet_jsSet_self] at hr
              cases hr
              exact ⟨le_refl _, hmax, le_refl _⟩
            · rw [jsGet_jsSet_ne _ _ _ _ fun he => ht he.symm] at hr
              obtain ⟨h1, h2, h3⟩ := hcounts t r hr
              exact ⟨h1, h2, by omega⟩
          obtain ⟨IH1, IH2⟩ := ih (jsSet counts toolName ⟨1, now + windowMs⟩)
            now hmono' hcounts₁
          constructor
          · intro c hc
            rw [hrun] at hc
            rcases List.mem_cons.mp hc with rfl | hc
            · refine ⟨show now + windowMs - windowMs ≤ now by omega,
                show now ≤ now + windowMs by omega, ?_⟩
              intro r hr
              have hr' : jsGet counts toolName = some r := hr
              rw [hrec] at hr'
              cases hr'
            · obtain ⟨hb1, hb2, hb3⟩ := IH1 c hc
              refine ⟨hb1, hb2, ?_⟩
              intro r hr
              by_cases ht : c.tool = toolName
              · rw [ht, hrec] at hr; cases hr
              · have hr2 : jsGet (jsSet counts toolName ⟨1, now + windowMs⟩)
                    c.tool = some r := by
                  rw [jsGet_jsSet_ne _ _ _ _ (fun he => ht he.symm)]
                  exact hr
                exact hb3 r hr2
          · intro tool R
            rw [hrun]
            by_cases htool : toolName = tool
            · subst htool
              by_cases hR : now + windowMs = R
              · rw [admGroup_cons_pos _ _ _ _ rfl hR]
                have hg0 := groupCount_of_none counts toolName R hrec
                have hg1 : groupCount
                    (jsSet counts toolName ⟨1, now + windowMs⟩) toolName R = 1 := by
                  rw [groupCount_of_get _ _ _ _ (jsGet_jsSet_self _ _ _)]
                  simp [hR]
                have hIH := IH2 toolName R
                simp only [List.length_cons]
                omega
              · rw [admGroup_cons_neg _ _ _ _ fun hp => hR hp.2]
                have hg0 := groupCount_of_none counts toolName R hrec
                have hg1 : groupCount
                    (jsSet counts toolName ⟨1, now + windowMs⟩) toolName R = 0 := by
                  rw [groupCount_of_get _ _ _ _ (jsGet_jsSet_self _ _ _)]
                  exact if_neg hR
                have hIH := IH2 toolName R
                omega
            · rw [admGroup_cons_neg _ _ _ _ fun hp => htool hp.1]
              have hg : groupCount
                  (jsSet counts toolName ⟨1, now + windowMs⟩) tool R =
                  groupCount counts tool R := by
                simp [groupCount, jsGet_jsSet_ne _ _ _ _ htool]
              have hIH := IH2 tool R
              omega
      | some r₀ =>
          by_cases hexp : r₀.resetTime < now
          · -- expired window: reset to a fresh record
            have hstep : rateLimitBeforeToolCall maxCalls windowMs counts now
                toolName = .ok (jsSet counts toolName ⟨1, now + windowMs⟩) := by
              simp [rateLimitBeforeToolCall, hrec, hexp]
            have hrun : rlRun maxCalls windowMs ((now, toolName) :: rest)
                counts = ⟨now, toolName, now + windowMs⟩ ::
                  rlRun maxCalls windowMs rest
                    (jsSet counts toolName ⟨1, now + windowMs⟩) := by
              simp [rlRun, hstep, jsGet_jsSet_self]
            have hcounts₁ : ∀ t r,
                jsGet (jsSet counts toolName ⟨1, now + windowMs⟩) t = some r →
                1 ≤ r.count ∧ r.count ≤ maxCalls ∧
                  r.resetTime ≤ now + windowMs := by
              intro t r hr
              by_cases ht : t = toolName
              · subst ht
                rw [jsGet_jsSet_self] at hr
                cases hr
                exact ⟨le_refl _, hmax, le_refl _⟩
              · rw [jsGet_jsSet_ne _ _ _ _ fun he => ht he.symm] at hr
                obtain ⟨h1, h2, h3⟩ := hcounts t r hr
                exact ⟨h1, h2, by omega⟩
            obtain ⟨IH1, IH2⟩ := ih (jsSet counts toolName ⟨1, now + windowMs⟩)
              now hmono' hcounts₁
            constructor
            · intro c hc
              rw [hrun] at hc
              rcases List.mem_cons.mp hc with rfl | hc
              · refine ⟨show now + windowMs - windowMs ≤ now by omega,
                  show now ≤ now + windowMs by omega, ?_⟩
                intro r hr
                have hr' : jsGet counts toolName = some r := hr
                rw [hrec] at hr'
                cases hr'
                show r₀.resetTime ≤ now + windowMs
                omega
              · obtain ⟨hb1, hb2, hb3⟩ := IH1 c hc
                refine ⟨hb1, hb2, ?_⟩
                intro r hr
                by_cases ht : c.tool = toolName
                · rw [ht, hrec] at hr
                  cases hr
                  have h3' : now + windowMs ≤ c.resetAt :=
                    hb3 ⟨1, now + windowMs⟩ (by rw [ht, jsGet_jsSet_self])
                  omega
                · have hr2 : jsGet (jsSet counts toolName ⟨1, now + windowMs⟩)
                      c.tool = some r := by
                    rw [jsGet_jsSet_ne _ _ _ _ (fun he => ht he.symm)]
                    exact hr
                  exact hb3 r hr2
            · intro tool R
              rw [hrun]
              by_cases htool : toolName = tool
              · subst htool
                by_cases hR : now + windowMs = R
                · rw [admGroup_cons_pos _ _ _ _ rfl hR]
                  have hg0 : groupCount counts toolName R = 0 := by
                    rw [groupCount_of_get _ _ _ _ hrec]
                    exact if_neg (by omega)
                  have hg1 : groupCount
                      (jsSet counts toolName ⟨1, now + windowMs⟩) toolName R = 1 := by
                    rw [groupCount_of_get _ _ _ _ (jsGet_jsSet_self _ _ _)]
                    simp [hR]
                  have hIH := IH2 toolName R
                  simp only [List.length_cons]
                  omega
                · rw [admGroup_cons_neg _ _ _ _ fun hp => hR hp.2]
                  have hg1 : groupCount
                      (jsSet counts toolName ⟨1, now + windowMs⟩) toolName R = 0 := by
                    rw [groupCount_of_get _ _ _ _ (jsGet_jsSet_self _ _ _)]
                    exact if_neg hR
                  by_cases hold : r₀.resetTime = R
                  · have hempty : admGroup (rlRun maxCalls windowMs rest
                        (jsSet counts toolName ⟨1, now + windowMs⟩))
                        toolName R = [] := by
                      rw [List.eq_nil_iff_forall_not_mem]
                      intro c hc
                      simp only [admGroup, List.mem_filter, Bool.and_eq_true,
                        decide_eq_true_eq] at hc
                      obtain ⟨hmem, hct, hcr⟩ := hc
                      have h3' : now + windowMs ≤ c.resetAt :=
                        (IH1 c hmem).2.2 ⟨1, now + windowMs⟩
                          (by rw [hct, jsGet_jsSet_self])
                      omega
                    rw [hempty]
                    have hle := (hcounts toolName r₀ hrec).2.1
                    have hg : groupCount counts toolName R = r₀.count := by
                      rw [groupCount_of_get _ _ _ _ hrec]
                      exact if_pos hold
                    simp only [List.length_nil]
                    omega
                  · have hg : groupCount counts toolName R = 0 := by
                      rw [groupCount_of_get _ _ _ _ hrec]
                      exact if_neg hold
                    have hIH := IH2 toolName R
                    omega
              · rw [admGroup_cons_neg _ _ _ _ fun hp => htool hp.1]
                have hg : groupCount
                    (jsSet counts toolName ⟨1, now + windowMs⟩) tool R =
                    groupCount counts tool R := by
                  simp [groupCount, jsGet_jsSet_ne _ _ _ _ htool]
                have hIH := IH2 tool R
                omega
          · by_cases hlim : maxCalls ≤ r₀.count
            · -- denied: at the limit inside the live window
              have hstep : rateLimitBeforeToolCall maxCalls windowMs counts now
                  toolName =
                  .error ("Rate limit exceeded for tool " ++ toolName) := by
                simp [rateLimitBeforeToolCall, hrec, hexp, hlim]
              have hrun : rlRun maxCalls windowMs ((now, toolName) :: rest)
                  counts = rlRun maxCalls windowMs rest counts := by
                simp [rlRun, hstep]
              have hcounts₁ : ∀ t r, jsGet counts t = some r →
                  1 ≤ r.count ∧ r.count ≤ maxCalls ∧
                    r.resetTime ≤ now + windowMs := by
                intro t r hr
                obtain ⟨h1, h2, h3⟩ := hcounts t r hr
                exact ⟨h1, h2, by omega⟩
              obtain ⟨IH1, IH2⟩ := ih counts now hmono' hcounts₁
              rw [hrun]
              exact ⟨IH1, IH2⟩
            · -- admitted into the live window: increment
              have hstep : rateLimitBeforeToolCall maxCalls windowMs counts now
                  toolName = .ok (jsSet counts toolName
                    ⟨r₀.count + 1, r₀.resetTime⟩) := by
                simp [rateLimitBeforeToolCall, hrec, hexp, hlim]
              have hrun : rlRun maxCalls windowMs ((now, toolName) :: rest)
                  counts = ⟨now, toolName, r₀.resetTime⟩ ::
                    rlRun maxCalls windowMs rest
                      (jsSet counts toolName ⟨r₀.count + 1, r₀.resetTime⟩) := by
                simp [rlRun, hstep, jsGet_jsSet_self]
              have hr₀w : r₀.resetTime ≤ lo + windowMs :=
                (hcounts toolName r₀ hrec).2.2
              have hcounts₁ : ∀ t r,
                  jsGet (jsSet counts toolName ⟨r₀.count + 1, r₀.resetTime⟩) t =
                    some r →
                  1 ≤ r.count ∧ r.count ≤ maxCalls ∧
                    r.resetTime ≤ now + windowMs := by
                intro t r hr
                by_cases ht : t = toolName
                · subst ht
                  rw [jsGet_jsSet_self] at hr
                  cases hr
                  exact ⟨show 1 ≤ r₀.count + 1 by omega,
                    show r₀.count + 1 ≤ maxCalls by omega,
                    show r₀.resetTime ≤ now + windowMs by omega⟩
                · rw [jsGet_jsSet_ne _ _ _ _ fun he => ht he.symm] at hr
                  obtain ⟨h1, h2, h3⟩ := hcounts t r hr
                  exact ⟨h1, h2, by omega⟩
              obtain ⟨IH1, IH2⟩ := ih
                (jsSet counts toolName ⟨r₀.count + 1, r₀.resetTime⟩)
                now hmono' hcounts₁
              constructor
              · intro c hc
                rw [hrun] at hc
                rcases List.mem_cons.mp hc with rfl | hc
                · refine ⟨show r₀.resetTime - windowMs ≤ now by omega,
                    show now ≤ r₀.resetTime by omega, ?_⟩
                  intro r hr
                  have hr' : jsGet counts toolName = some r := hr
                  rw [hrec] at hr'
                  cases hr'
                  exact le_refl _
                · obtain ⟨hb1, hb2, hb3⟩ := IH1 c hc
                  refine ⟨hb1, hb2, ?_⟩
                  intro r hr
                  by_cases ht : c.tool = toolName
                  · rw [ht, hrec] at hr
                    cases hr
                    exact hb3 ⟨r₀.count + 1, r₀.resetTime⟩
                      (by rw [ht, jsGet_jsSet_self])
                  · have hr2 : jsGet (jsSet counts toolName
                        ⟨r₀.count + 1, r₀.resetTime⟩) c.tool = some r := by
                      rw [jsGet_jsSet_ne _ _ _ _ (fun he => ht he.symm)]
                      exact hr
                    exact hb3 r hr2
              · intro tool R
                rw [hrun]
                by_cases htool : toolName = tool
                · subst htool
                  by_cases hR : r₀.resetTime = R
                  · rw [admGroup_cons_pos _ _ _ _ rfl hR]
                    have hg0 : groupCount counts toolName R = r₀.count := by
                      rw [groupCount_of_get _ _ _ _ hrec]
                      exact if_pos hR
                    have hg1 : groupCount
                        (jsSet counts toolName ⟨r₀.count + 1, r₀.resetTime⟩)
                        toolName R = r₀.count + 1 := by
                      rw [groupCount_of_get _ _ _ _ (jsGet_jsSet_self _ _ _)]
                      exact if_pos hR
                    have hIH := IH2 toolName R
                    simp only [List.length_cons]
                    omega
                  · rw [admGroup_cons_neg _ _ _ _ fun hp => hR hp.2]
                    have hg0 : groupCount counts toolName R = 0 := by
                      rw [groupCount_of_get _ _ _ _ hrec]
                      exact if_neg hR
                    have hg1 : groupCount
                        (jsSet counts toolName ⟨r₀.count + 1, r₀.resetTime⟩)
                        toolName R = 0 := by
                      rw [groupCount_of_get _ _ _ _ (jsGet_jsSet_self _ _ _)]
                      exact if_neg hR
                    have hIH := IH2 toolName R
                    omega
                · rw [admGroup_cons_neg _ _ _ _ fun hp => htool hp.1]
                  have hg : groupCount
                      (jsSet counts toolName ⟨r₀.count + 1, r₀.resetTime⟩)
                      tool R = groupCount counts tool R := by
                    simp [groupCount, jsGet_jsSet_ne _ _ _ _ htool]
                  have hIH := IH2 tool R
                  omega

/-- C3 counterexample: with `maxCalls = 2`, `windowMs = 100` and calls to
tool "a" at times 0, 99, 101, 150, all four calls are admitted (the fixed
window resets at time 101), yet the sliding window `[51, 151)` of size
`windowMs` contains three admitted calls — more than `maxCalls`. -/
theorem rate_limit_sliding_window_cex :
    (rlRun 2 100 rlSchedule []).length = 4 ∧
    countWindow (rlRun 2 100 rlSchedule []) "a" 51 100 = 3 ∧
    ¬(countWindow (rlRun 2 100 rlSchedule []) "a" 51 100 ≤ 2) :=
  ⟨by decide, by decide, by decide⟩

/-- C3 (amended): the limiter enforces a per-tool FIXED window, not a
sliding one: for a time-sorted call sequence started from empty counters,
the admitted calls of a tool that share a window record (same `resetAt`
value `R`) number at most `maxCalls`, and all their times lie in the
`windowMs`-sized interval `[R − windowMs, R]`.  (A sliding window
straddling two fixed windows can see up to twice `maxCalls` calls, as the
counterexample shows.) -/
theorem rate_limit_fixed_window_bound (maxCalls : Nat) (windowMs lo : Int)
    (sched : List (Int × String)) (tool : String) (R : Int)
    (hmax : 1 ≤ maxCalls) (hw : 0 ≤ windowMs) (hmono : timesLB lo sched) :
    (admGroup (rlRun maxCalls windowMs sched []) tool R).length ≤ maxCalls ∧
    ∀ c ∈ admGroup (rlRun maxCalls windowMs sched []) tool R,
      R - windowMs ≤ c.time ∧ c.time ≤ R := by
  obtain ⟨h1, h2⟩ := rlRun_invariant maxCalls windowMs hmax hw sched [] lo
    hmono (by intro t r h; simp [jsGet] at h)
  constructor
  · have hb := h2 tool R
    rw [groupCount_of_none [] tool R (by simp [jsGet])] at hb
    omega
  · intro c hc
    simp only [admGroup, List.mem_filter, Bool.and_eq_true,
      decide_eq_true_eq] at hc
    obtain ⟨hmem, hct, hcr⟩ := hc
    obtain ⟨hb1, hb2, _⟩ := h1 c hmem
    exact ⟨by omega, by omega⟩

/-- Witness for C3 (amended) on the counterexample schedule and the first
window (reset time 100). -/
theorem rate_limit_fixed_window_witness :
    (admGroup (rlRun 2 100 rlSchedule []) "a" 100).length ≤ 2 ∧
    ∀ c ∈ admGroup (rlRun 2 100 rlSchedule []) "a" 100,
      100 - 100 ≤ c.time ∧ c.time ≤ 100 :=
  rate_limit_fixed_window_bound 2 100 0 rlSchedule "a" 100 (by decide)
    (by decide) (by norm_num [timesLB, rlSchedule])

end MCP
